import Mathlib

/-!
Shallow embedding of the instruction-metadata core of `bbscript`
(`src/command_db.rs`): the game database (`GameDB`), instruction records
(`Function`), the argument-layout decoder (`Function::get_args`), the
named-value lookups (`get_value` / `get_name`) and the id/name lookups
(`find_by_id` / `find_by_name`), together with theorems settling the
specification claims about them.

Machine integers: `id`, `size` and the decoder's `size_of_args` counter are
Rust `u32`; they are modelled as `Nat` with explicit wrapping modulo `2^32`
(release-mode Rust semantics, which the spec's wrap-guard discussion fixes).
Raw operand values are Rust `i32`, modelled as `Int` (only equality is used).
Descriptor strings are scanned as raw bytes (`String::as_bytes`), modelled as
`List Nat` of byte values; the relevant bytes are `i` = 105, `1` = 49,
`6` = 54, `s` = 115, `3` = 51, `2` = 50.
-/

namespace BBScript

/-- `2^32`, the modulus of Rust `u32` arithmetic. -/
def U32_MOD : Nat := 4294967296

/-- Wrapping `u32` subtraction `a - b` (release-mode Rust semantics). -/
def wrapSub (a b : Nat) : Nat :=
  (a % U32_MOD + (U32_MOD - b % U32_MOD)) % U32_MOD

/-- Modelled from the spec: the repository's error enum `BBScriptError` lives
in `src/error.rs`, which is not part of the provided sources; the variant
shapes are reconstructed from their construction sites in `command_db.rs`
and the spec's error-handling section (`GameDatabaseNotFound`,
`UnknownInstruction`, `NoAssociatedValue`). -/
inductive BBScriptError where
  | GameDBNotFound (path : String)
  | UnknownFunction (idOrName : String)
  | NoAssociatedValue (slot : String) (name : String)
  deriving DecidableEq

/-- `enum CodeBlock` from `command_db.rs`. -/
inductive CodeBlock where
  | Begin
  | BeginJumpEntry
  | End
  | NoBlock
  deriving DecidableEq

/-- `enum Arg` from `command_db.rs`: a typed, sized argument spec. -/
inductive Arg where
  | String16
  | String32
  | Int
  | Unknown (n : Nat)
  deriving DecidableEq

/-- `struct Function` from `command_db.rs`: one instruction record.
`named_values` is the record's `BiMap<(u32, i32), (u32, String)>` from the
external `bimap` crate, modelled as its list of (left key, right key)
entries; the crate's invariants (left keys pairwise distinct, right keys
pairwise distinct) are stated separately as `LeftUnique` / `RightUnique`
and assumed where a theorem needs them. -/
structure Function where
  id : Nat
  size : Nat
  args : List Nat
  name : String
  code_block : CodeBlock
  named_values : List ((Nat × Int) × (Nat × String))
  deriving DecidableEq

/-- Left keys of a `BiMap` are pairwise distinct (bimap crate invariant). -/
def LeftUnique (m : List ((Nat × Int) × (Nat × String))) : Prop :=
  ∀ e1 ∈ m, ∀ e2 ∈ m, e1.1 = e2.1 → e1 = e2

/-- Right keys of a `BiMap` are pairwise distinct (bimap crate invariant). -/
def RightUnique (m : List ((Nat × Int) × (Nat × String))) : Prop :=
  ∀ e1 ∈ m, ∀ e2 ∈ m, e1.2 = e2.2 → e1 = e2

instance (m : List ((Nat × Int) × (Nat × String))) : Decidable (LeftUnique m) := by
  unfold LeftUnique; infer_instance

instance (m : List ((Nat × Int) × (Nat × String))) : Decidable (RightUnique m) := by
  unfold RightUnique; infer_instance

/-- `Function::get_value`: looks the right key `name = (slot, string)` up in
`named_values` and returns the `i32` component of the paired left key;
fails with `NoAssociatedValue(slot.to_string(), string)` when absent. -/
def Function.get_value (f : Function) (name : Nat × String) :
    Except BBScriptError Int :=
  match f.named_values.find? (fun e => decide (e.2 = name)) with
  | some e => Except.ok e.1.2
  | none =>
      Except.error (BBScriptError.NoAssociatedValue (toString name.1) name.2)

/-- `Function::get_name`: looks the left key `value = (slot, i32)` up in
`named_values` and returns the string component of the paired right key;
returns `none` (not an error) when absent. -/
def Function.get_name (f : Function) (value : Nat × Int) : Option String :=
  match f.named_values.find? (fun e => decide (e.1 = value)) with
  | some e => some e.2.2
  | none => none

/-- The scanning loop of `Function::get_args`: walks the descriptor's byte
slice left to right, emitting `Arg::Int` for byte `i` (105), `Arg::String16`
for the byte sequence `16s` (49, 54, 115), `Arg::String32` for `32s`
(51, 50, 115), and skipping any other byte; `size_of_args` accumulates
4 / 16 / 32 per emission in wrapping `u32` arithmetic. Returns the emitted
sequence together with the final `size_of_args`. -/
def get_args_loop : List Nat → List Arg × Nat
  | [] => ([], 0)
  | 105 :: rest =>
      let r := get_args_loop rest
      (Arg.Int :: r.1, (r.2 + 4) % U32_MOD)
  | 49 :: 54 :: 115 :: rest =>
      let r := get_args_loop rest
      (Arg.String16 :: r.1, (r.2 + 16) % U32_MOD)
  | 51 :: 50 :: 115 :: rest =>
      let r := get_args_loop rest
      (Arg.String32 :: r.1, (r.2 + 32) % U32_MOD)
  | _ :: rest => get_args_loop rest

/-- The body of `Function::get_args`, curried over the two fields it reads:
after the scan, when `size_of_args < size - 4` (wrapping `u32` subtraction)
and `size >= 4`, a final `Arg::Unknown(size - size_of_args - 4)` is pushed. -/
def get_args (args : List Nat) (size : Nat) : List Arg :=
  let r := get_args_loop args
  let arg_accumulator := r.1
  let size_of_args := r.2
  if size_of_args < wrapSub size 4 then
    if 4 ≤ size then
      arg_accumulator ++ [Arg.Unknown (wrapSub (wrapSub size size_of_args) 4)]
    else arg_accumulator
  else arg_accumulator

/-- `Function::get_args` proper, reading the record's fields. -/
def Function.get_args (f : Function) : List Arg :=
  BBScript.get_args f.args f.size

/-- `Function::instruction_name`: the record's `name` when non-empty,
otherwise `format!("Unknown{}", id)`. -/
def Function.instruction_name (f : Function) : String :=
  if f.name.isEmpty then "Unknown" ++ toString f.id else f.name

/-- `Function::is_jump_entry`. -/
def Function.is_jump_entry (f : Function) : Bool :=
  decide (f.code_block = CodeBlock.BeginJumpEntry)

/-- `struct GameDB`: the ordered sequence of instruction records as declared
in the game's database file. -/
structure GameDB where
  functions : List Function
  deriving DecidableEq

/-- Rust's `format!("{:#X}", n)` for a `u32`: `0x` followed by the uppercase
hexadecimal digits of `n`. -/
def formatHexUpper (n : Nat) : String :=
  "0x" ++ String.mk ((Nat.toDigits 16 n).map Char.toUpper)

/-- `GameDB::find_by_id`: first record in declaration order whose `id`
matches; fails with `UnknownFunction(format!("{:#X}", id))` when absent. -/
def GameDB.find_by_id (db : GameDB) (id_in : Nat) :
    Except BBScriptError Function :=
  match db.functions.find? (fun x => decide (x.id = id_in)) with
  | some f => Except.ok f
  | none => Except.error (BBScriptError.UnknownFunction (formatHexUpper id_in))

/-- `GameDB::find_by_name`: first record in declaration order whose `name`
matches; fails with `UnknownFunction(name)` when absent. -/
def GameDB.find_by_name (db : GameDB) (name_in : String) :
    Except BBScriptError Function :=
  match db.functions.find? (fun x => decide (x.name = name_in)) with
  | some f => Except.ok f
  | none => Except.error (BBScriptError.UnknownFunction name_in)

/-- Byte size of one argument spec (`Int` 4, `String16` 16, `String32` 32,
`Unknown n` is `n`). -/
def argSize : Arg → Nat
  | Arg.String16 => 16
  | Arg.String32 => 32
  | Arg.Int => 4
  | Arg.Unknown n => n

/-- Whether a spec is the untyped trailing-padding variant. -/
def isUnknownArg : Arg → Bool
  | Arg.Unknown _ => true
  | _ => false

/-- One iteration of the `while !arg_string.is_empty()` loop of
`Function::get_args`, as an explicit step function on the loop state
(remaining descriptor bytes, accumulated specs, `size_of_args`). -/
def loopStep : List Nat × List Arg × Nat → List Nat × List Arg × Nat
  | ([], acc, s) => ([], acc, s)
  | (105 :: rest, acc, s) => (rest, acc ++ [Arg.Int], (s + 4) % U32_MOD)
  | (49 :: 54 :: 115 :: rest, acc, s) =>
      (rest, acc ++ [Arg.String16], (s + 16) % U32_MOD)
  | (51 :: 50 :: 115 :: rest, acc, s) =>
      (rest, acc ++ [Arg.String32], (s + 32) % U32_MOD)
  | (_ :: rest, acc, s) => (rest, acc, s)

/-- Runs the `get_args` scanning loop for at most `n` iterations, stopping
as soon as the remaining descriptor slice is empty (the loop guard). -/
def loopRun : Nat → List Nat × List Arg × Nat → List Nat × List Arg × Nat
  | 0, st => st
  | Nat.succ n, st => if st.1 = [] then st else loopRun n (loopStep st)

deriving instance DecidableEq for Except

/-! ## Helper lemmas -/

/-- The `size_of_args` counter is a `u32` value. -/
lemma scan_snd_lt (args : List Nat) : (get_args_loop args).2 < U32_MOD := by
  induction args using get_args_loop.induct with
  | case1 => simp [get_args_loop, U32_MOD]
  | case2 rest ih => simp only [get_args_loop]; unfold U32_MOD; omega
  | case3 rest ih => simp only [get_args_loop]; unfold U32_MOD; omega
  | case4 rest ih => simp only [get_args_loop]; unfold U32_MOD; omega
  | case5 b rest h1 h2 h3 ih => simpa [get_args_loop] using ih

/-- `size_of_args` is the byte total of the emitted specs, wrapped mod `2^32`. -/
lemma scan_sizes_mod (args : List Nat) :
    (get_args_loop args).2 = ((get_args_loop args).1.map argSize).sum % U32_MOD := by
  induction args using get_args_loop.induct with
  | case1 => simp [get_args_loop]
  | case2 rest ih =>
      simp only [get_args_loop, List.map_cons, List.sum_cons, argSize]
      rw [ih]; unfold U32_MOD; omega
  | case3 rest ih =>
      simp only [get_args_loop, List.map_cons, List.sum_cons, argSize]
      rw [ih]; unfold U32_MOD; omega
  | case4 rest ih =>
      simp only [get_args_loop, List.map_cons, List.sum_cons, argSize]
      rw [ih]; unfold U32_MOD; omega
  | case5 b rest h1 h2 h3 ih => simpa [get_args_loop] using ih

/-- The scanning loop itself never emits an `Unknown` spec. -/
lemma scan_no_unknown (args : List Nat) (n : Nat) :
    Arg.Unknown n ∉ (get_args_loop args).1 := by
  induction args using get_args_loop.induct with
  | case1 => simp [get_args_loop]
  | case2 rest ih => simp [get_args_loop]; exact ih
  | case3 rest ih => simp [get_args_loop]; exact ih
  | case4 rest ih => simp [get_args_loop]; exact ih
  | case5 b rest h1 h2 h3 ih => simpa [get_args_loop] using ih

/-- Wrapping `u32` subtraction agrees with `Nat` subtraction when in range. -/
lemma wrapSub_eq_sub (a b : Nat) (hba : b ≤ a) (ha : a < U32_MOD) :
    wrapSub a b = a - b := by
  unfold wrapSub U32_MOD at *
  omega

/-- Wrapping `u32` subtraction wraps around when the subtrahend is larger. -/
lemma wrapSub_small (a b : Nat) (hab : a < b) (hb : b < U32_MOD) :
    wrapSub a b = a + (U32_MOD - b) := by
  unfold wrapSub U32_MOD at *
  omega

/-- A byte at which no token starts is skipped with no emission. -/
lemma scan_skip (b : Nat) (rest : List Nat) (hb : b ≠ 105)
    (h16 : ∀ r, b :: rest ≠ 49 :: 54 :: 115 :: r)
    (h32 : ∀ r, b :: rest ≠ 51 :: 50 :: 115 :: r) :
    get_args_loop (b :: rest) = get_args_loop rest :=
  get_args_loop.eq_5 b rest (fun h => hb h)
    (fun r h1 h2 => h16 r (by rw [h1, h2]))
    (fun r h1 h2 => h32 r (by rw [h1, h2]))

/-- `loopStep` on a byte at which no token starts. -/
lemma loopStep_skip (b : Nat) (rest : List Nat) (acc : List Arg) (s : Nat)
    (hb : b ≠ 105)
    (h16 : ∀ r, b :: rest ≠ 49 :: 54 :: 115 :: r)
    (h32 : ∀ r, b :: rest ≠ 51 :: 50 :: 115 :: r) :
    loopStep (b :: rest, acc, s) = (rest, acc, s) :=
  loopStep.eq_5 b rest acc s (fun h => hb h)
    (fun r h1 h2 => h16 r (by rw [h1, h2]))
    (fun r h1 h2 => h32 r (by rw [h1, h2]))

/-- Exhaustive case split on the head of a non-empty descriptor slice,
mirroring the four arms of the loop's `match`. -/
lemma cons_cases (b : Nat) (rest : List Nat) :
    b = 105
  ∨ (∃ r, b = 49 ∧ rest = 54 :: 115 :: r)
  ∨ (∃ r, b = 51 ∧ rest = 50 :: 115 :: r)
  ∨ (b ≠ 105 ∧ (∀ r, b :: rest ≠ 49 :: 54 :: 115 :: r)
      ∧ (∀ r, b :: rest ≠ 51 :: 50 :: 115 :: r)) := by
  by_cases hb : b = 105
  · exact Or.inl hb
  by_cases h16 : ∃ r, b = 49 ∧ rest = 54 :: 115 :: r
  · exact Or.inr (Or.inl h16)
  by_cases h32 : ∃ r, b = 51 ∧ rest = 50 :: 115 :: r
  · exact Or.inr (Or.inr (Or.inl h32))
  refine Or.inr (Or.inr (Or.inr ⟨hb, ?_, ?_⟩))
  · intro r heq
    rw [List.cons_eq_cons] at heq
    exact h16 ⟨r, heq.1, heq.2⟩
  · intro r heq
    rw [List.cons_eq_cons] at heq
    exact h32 ⟨r, heq.1, heq.2⟩

/-- Every iteration of the loop strictly shortens the remaining slice. -/
lemma loopStep_fst_length (st : List Nat × List Arg × Nat) (h : st.1 ≠ []) :
    (loopStep st).1.length < st.1.length := by
  obtain ⟨bytes, acc, s⟩ := st
  cases bytes with
  | nil => exact absurd rfl h
  | cons b rest =>
      rcases cons_cases b rest with hb | ⟨r, hb, hr⟩ | ⟨r, hb, hr⟩ | ⟨hb, h16, h32⟩
      · subst hb; simp [loopStep]
      · subst hb; subst hr; simp [loopStep]; omega
      · subst hb; subst hr; simp [loopStep]; omega
      · rw [loopStep_skip b rest acc s hb h16 h32]; simp

/-- Running the loop for (at least) one iteration per remaining byte empties
the slice, and the accumulated state is exactly the structural scan's
output appended to the starting state. -/
lemma loopRun_scan (n : Nat) : ∀ (bytes : List Nat) (acc : List Arg) (s : Nat),
    bytes.length ≤ n → s < U32_MOD →
    loopRun n (bytes, acc, s)
      = ([], acc ++ (get_args_loop bytes).1,
          (s + (get_args_loop bytes).2) % U32_MOD) := by
  induction n with
  | zero =>
      intro bytes acc s hlen hs
      have hnil : bytes = [] := List.eq_nil_of_length_eq_zero (Nat.le_zero.mp hlen)
      subst hnil
      simp [loopRun, get_args_loop, Nat.mod_eq_of_lt hs]
  | succ n ih =>
      intro bytes acc s hlen hs
      cases bytes with
      | nil => simp [loopRun, get_args_loop, Nat.mod_eq_of_lt hs]
      | cons b rest =>
          rw [show loopRun (n + 1) (b :: rest, acc, s)
                = loopRun n (loopStep (b :: rest, acc, s)) from
              by rw [loopRun]; rw [if_neg (by simp)]]
          rcases cons_cases b rest with hb | ⟨r, hb, hr⟩ | ⟨r, hb, hr⟩ | ⟨hb, h16, h32⟩
          · subst hb
            rw [show loopStep (105 :: rest, acc, s)
                  = (rest, acc ++ [Arg.Int], (s + 4) % U32_MOD) from rfl]
            rw [ih rest _ _ (by simpa using hlen) (by unfold U32_MOD at *; omega)]
            simp only [get_args_loop, Prod.mk.injEq, List.append_assoc,
              List.singleton_append, true_and, and_true]
            unfold U32_MOD; omega
          · subst hb; subst hr
            rw [show loopStep (49 :: 54 :: 115 :: r, acc, s)
                  = (r, acc ++ [Arg.String16], (s + 16) % U32_MOD) from rfl]
            rw [ih r _ _ (by simp at hlen; omega) (by unfold U32_MOD at *; omega)]
            simp only [get_args_loop, Prod.mk.injEq, List.append_assoc,
              List.singleton_append, true_and, and_true]
            unfold U32_MOD; omega
          · subst hb; subst hr
            rw [show loopStep (51 :: 50 :: 115 :: r, acc, s)
                  = (r, acc ++ [Arg.String32], (s + 32) % U32_MOD) from rfl]
            rw [ih r _ _ (by simp at hlen; omega) (by unfold U32_MOD at *; omega)]
            simp only [get_args_loop, Prod.mk.injEq, List.append_assoc,
              List.singleton_append, true_and, and_true]
            unfold U32_MOD; omega
          · rw [loopStep_skip b rest acc s hb h16 h32]
            rw [ih rest _ _ (by simpa using hlen) hs]
            rw [scan_skip b rest hb h16 h32]

/-- `List.find?` returns the first element satisfying the predicate. -/
lemma find?_first {α : Type} (p : α → Bool) :
    ∀ (l : List α) (a : α),
    l.find? p = some a
      ↔ ∃ l1 l2, l = l1 ++ a :: l2 ∧ p a = true ∧ ∀ x ∈ l1, p x = false := by
  intro l
  induction l with
  | nil => intro a; simp
  | cons b t ih =>
      intro a
      by_cases hb : p b = true
      · rw [List.find?_cons_of_pos t hb]
        constructor
        · intro h
          obtain rfl : b = a := Option.some.inj h
          exact ⟨[], t, rfl, hb, by simp⟩
        · rintro ⟨l1, l2, heq, hpa, hall⟩
          cases l1 with
          | nil =>
              rw [List.nil_append] at heq
              rw [(List.cons_eq_cons.mp heq).1]
          | cons c l1' =>
              rw [List.cons_append, List.cons_eq_cons] at heq
              have hc : p b = false := heq.1 ▸ hall c (List.mem_cons_self c l1')
              rw [hc] at hb; exact absurd hb (by simp)
      · rw [List.find?_cons_of_neg t hb, ih a]
        constructor
        · rintro ⟨l1, l2, heq, hpa, hall⟩
          refine ⟨b :: l1, l2, by rw [List.cons_append, heq], hpa, ?_⟩
          intro x hx
          rcases List.mem_cons.mp hx with rfl | hx'
          · exact Bool.not_eq_true _ ▸ (by simpa using hb)
          · exact hall x hx'
        · rintro ⟨l1, l2, heq, hpa, hall⟩
          cases l1 with
          | nil =>
              rw [List.nil_append] at heq
              obtain ⟨rfl, _⟩ := List.cons_eq_cons.mp heq
              exact absurd hpa hb
          | cons c l1' =>
              rw [List.cons_append, List.cons_eq_cons] at heq
              exact ⟨l1', l2, heq.2, hpa,
                fun x hx => hall x (List.mem_cons_of_mem c hx)⟩

/-- When exactly one element satisfies the predicate, `find?` returns any
satisfying member. -/
lemma find?_of_countP_one {α : Type} (p : α → Bool) (l : List α) (a : α)
    (ha : a ∈ l) (hpa : p a = true) (hc : l.countP p = 1) :
    l.find? p = some a := by
  cases hfind : l.find? p with
  | none =>
      rw [List.find?_eq_none] at hfind
      exact absurd hpa (hfind a ha)
  | some b =>
      obtain ⟨l1, l2, heq, hpb, hall⟩ := (find?_first p l b).mp hfind
      subst heq
      rcases List.mem_append.mp ha with h1 | h2
      · rw [hall a h1] at hpa; exact absurd hpa (by simp)
      · rcases List.mem_cons.mp h2 with rfl | h3
        · rfl
        · exfalso
          rw [List.countP_append, List.countP_cons_of_pos p l2 hpb] at hc
          have hpos : 0 < l2.countP p := List.countP_pos_iff.mpr ⟨a, h3, hpa⟩
          omega

/-- Scanning `n` copies of the `32s` token emits `n` `String32` specs and
accumulates `32 * n` consumed bytes, wrapped mod `2^32`. -/
lemma scan_rep32 (n : Nat) :
    get_args_loop (List.replicate n [51, 50, 115]).flatten
      = (List.replicate n Arg.String32, (32 * n) % U32_MOD) := by
  induction n with
  | zero => simp [get_args_loop]
  | succ k ih =>
      rw [List.replicate_succ, List.flatten_cons]
      show get_args_loop
          (51 :: 50 :: 115 :: (List.replicate k [51, 50, 115]).flatten) = _
      simp only [get_args_loop, ih, List.replicate_succ, Prod.mk.injEq,
        true_and, and_true]
      unfold U32_MOD; omega

/-! ## Claim theorems -/

/-- Claim C1: the descriptor scan goes left to right byte by byte and emits
exactly `Int` for byte `i` (consuming 4 layout bytes, advancing 1 descriptor
byte), `String16` for `16s` (consuming 16, advancing 3), `String32` for `32s`
(consuming 32, advancing 3), and nothing (advancing 1 byte) for any byte at
which no token starts; emission order follows descriptor order (each emitted
spec is consed in front of the scan of the remaining bytes). -/
theorem get_args_scan_steps (b : Nat) (rest : List Nat)
    (hb : b ≠ 105)
    (h16 : ∀ r, b :: rest ≠ 49 :: 54 :: 115 :: r)
    (h32 : ∀ r, b :: rest ≠ 51 :: 50 :: 115 :: r) :
    get_args_loop (105 :: rest)
      = (Arg.Int :: (get_args_loop rest).1,
          ((get_args_loop rest).2 + 4) % U32_MOD)
  ∧ get_args_loop (49 :: 54 :: 115 :: rest)
      = (Arg.String16 :: (get_args_loop rest).1,
          ((get_args_loop rest).2 + 16) % U32_MOD)
  ∧ get_args_loop (51 :: 50 :: 115 :: rest)
      = (Arg.String32 :: (get_args_loop rest).1,
          ((get_args_loop rest).2 + 32) % U32_MOD)
  ∧ get_args_loop (b :: rest) = get_args_loop rest
  ∧ get_args_loop [] = ([], 0) :=
  ⟨by simp [get_args_loop], by simp [get_args_loop], by simp [get_args_loop],
    scan_skip b rest hb h16 h32, rfl⟩

/-- Witness for C1 at the concrete skipped byte `x` (120) before an `i`. -/
theorem get_args_scan_steps_witness :
    get_args_loop [120, 105] = get_args_loop [105]
  ∧ get_args_loop [105, 120] = ([Arg.Int], 4) :=
  ⟨(get_args_scan_steps 120 [105] (by decide) (by simp) (by simp)).2.2.2.1,
    by decide⟩

/-- Claim C2: for `declared_size ≥ 4` (a `u32`), when the consumed-byte total
(`size_of_args`) is strictly below `size - 4` one final
`Unknown(size - size_of_args - 4)` is appended after the scanned specs, and
when it is `≥ size - 4` nothing is appended; in particular descriptor `"i"`
with size 20 gives `[Int, Unknown 12]` and `"ii"` with size 12
gives `[Int, Int]`. -/
theorem get_args_padding_rule (args : List Nat) (size : Nat)
    (h4 : 4 ≤ size) (hu : size < U32_MOD) :
    ((get_args_loop args).2 < size - 4 →
        get_args args size
          = (get_args_loop args).1
              ++ [Arg.Unknown (size - (get_args_loop args).2 - 4)])
  ∧ (size - 4 ≤ (get_args_loop args).2 →
      get_args args size = (get_args_loop args).1)
  ∧ get_args [105] 20 = [Arg.Int, Arg.Unknown 12]
  ∧ get_args [105, 105] 12 = [Arg.Int, Arg.Int] := by
  have hs := scan_snd_lt args
  refine ⟨?_, ?_, by decide, by decide⟩
  · intro hlt
    simp only [get_args]
    rw [wrapSub_eq_sub size 4 h4 hu]
    rw [if_pos hlt, if_pos h4]
    rw [wrapSub_eq_sub size (get_args_loop args).2 (by omega) hu]
    rw [wrapSub_eq_sub (size - (get_args_loop args).2) 4 (by omega) (by omega)]
  · intro hge
    simp only [get_args]
    rw [wrapSub_eq_sub size 4 h4 hu]
    rw [if_neg (by omega)]

/-- Witness for C2 at descriptor `"i"`, declared size 20. -/
theorem get_args_padding_rule_witness :
    get_args [105] 20
      = (get_args_loop [105]).1
          ++ [Arg.Unknown (20 - (get_args_loop [105]).2 - 4)] :=
  (get_args_padding_rule [105] 20 (by decide) (by decide)).1 (by decide)

/-- Claim C3: when the declared size is strictly below 4, no trailing
`Unknown` padding is appended — the result is exactly the scanned tokens —
and the `u32` guard subtraction `size - 4` indeed wraps modulo `2^32`
(its value is `size + 2^32 - 4`). -/
theorem get_args_no_padding_small_size (args : List Nat) (size : Nat)
    (h : size < 4) :
    get_args args size = (get_args_loop args).1
  ∧ wrapSub size 4 = size + (U32_MOD - 4) := by
  refine ⟨?_, wrapSub_small size 4 h (by unfold U32_MOD; omega)⟩
  simp only [get_args]
  split
  · rw [if_neg (by omega)]
  · rfl

/-- Witness for C3 at descriptor `"i"`, declared size 0. -/
theorem get_args_no_padding_small_size_witness :
    get_args [105] 0 = (get_args_loop [105]).1
  ∧ wrapSub 0 4 = 0 + (U32_MOD - 4) :=
  get_args_no_padding_small_size [105] 0 (by decide)

/-- Claim C4: the decoder is total, deterministic and pure: every iteration
of the scanning loop strictly shortens the remaining descriptor slice, so
running the loop once per descriptor byte empties the slice and produces
exactly the (total, error-free) structural scan result, and identical
inputs give identical outputs. -/
theorem get_args_total_deterministic (args bytes : List Nat) (size : Nat)
    (acc : List Arg) (s : Nat) (hne : bytes ≠ []) :
    (loopStep (bytes, acc, s)).1.length < bytes.length
  ∧ loopRun bytes.length (bytes, [], 0)
      = ([], (get_args_loop bytes).1, (get_args_loop bytes).2)
  ∧ get_args args size = get_args args size := by
  refine ⟨loopStep_fst_length (bytes, acc, s) hne, ?_, rfl⟩
  rw [loopRun_scan bytes.length bytes [] 0 le_rfl (by unfold U32_MOD; omega)]
  rw [List.nil_append, Nat.zero_add, Nat.mod_eq_of_lt (scan_snd_lt bytes)]

/-- Witness for C4 at descriptor `"i"`. -/
theorem get_args_total_deterministic_witness :
    (loopStep ([105], [], 0)).1.length < 1
  ∧ loopRun 1 ([105], [], 0)
      = ([], (get_args_loop [105]).1, (get_args_loop [105]).2)
  ∧ get_args [105] 20 = get_args [105] 20 :=
  get_args_total_deterministic [105] [105] 20 [] 0 (by decide)

/-- Counterexample to C5 as stated: `named_values` may (as a well-formed
bimap, left- and right-unique) pair a left key and a right key whose slot
indices differ. In the record with the single entry `((0, 5), (1, "a"))`,
the pair `(1, "a")` is bound, `get_value (1, "a")` succeeds with raw value
5, yet `get_name (1, 5)` is `none`, not `some "a"`. -/
theorem get_value_get_name_roundtrip_counterexample :
    LeftUnique [((0, 5), (1, "a"))]
  ∧ RightUnique [((0, 5), (1, "a"))]
  ∧ (∃ e ∈ (Function.mk 9 8 [] "f" CodeBlock.NoBlock
        [((0, 5), (1, "a"))]).named_values, e.2 = (1, "a"))
  ∧ (Function.mk 9 8 [] "f" CodeBlock.NoBlock
        [((0, 5), (1, "a"))]).get_value (1, "a") = Except.ok 5
  ∧ (Function.mk 9 8 [] "f" CodeBlock.NoBlock
        [((0, 5), (1, "a"))]).get_name (1, 5) = none := by decide

/-- Claim C5 as amended: for every record and every entry of `named_values`
binding the same slot on both sides — `((slot, v), (slot, name))` —
`get_value (slot, name)` succeeds with the raw value `v` and
`get_name (slot, v)` round-trips to `some name` (under the bimap key
uniqueness invariants). -/
theorem get_value_get_name_roundtrip (f : Function) (slot : Nat) (v : Int)
    (nm : String)
    (hmem : ((slot, v), (slot, nm)) ∈ f.named_values)
    (hl : LeftUnique f.named_values) (hr : RightUnique f.named_values) :
    f.get_value (slot, nm) = Except.ok v ∧ f.get_name (slot, v) = some nm := by
  constructor
  · unfold Function.get_value
    cases hfind : f.named_values.find? (fun e => decide (e.2 = (slot, nm))) with
    | none =>
        rw [List.find?_eq_none] at hfind
        have := hfind _ hmem
        simp at this
    | some e =>
        have hmem2 := List.mem_of_find?_eq_some hfind
        have hpe := List.find?_some hfind
        rw [decide_eq_true_eq] at hpe
        have he : e = ((slot, v), (slot, nm)) :=
          hr e hmem2 ((slot, v), (slot, nm)) hmem (by rw [hpe])
        rw [he]
  · unfold Function.get_name
    cases hfind : f.named_values.find? (fun e => decide (e.1 = (slot, v))) with
    | none =>
        rw [List.find?_eq_none] at hfind
        have := hfind _ hmem
        simp at this
    | some e =>
        have hmem2 := List.mem_of_find?_eq_some hfind
        have hpe := List.find?_some hfind
        rw [decide_eq_true_eq] at hpe
        have he : e = ((slot, v), (slot, nm)) :=
          hl e hmem2 ((slot, v), (slot, nm)) hmem (by rw [hpe])
        rw [he]

/-- Witness for the amended C5 at the spec's example binding
`(slot 0, raw 3) ↔ (slot 0, "kStateIdle")`. -/
theorem get_value_get_name_roundtrip_witness :
    (Function.mk 18 8 [105] "st" CodeBlock.NoBlock
        [((0, 3), (0, "kStateIdle"))]).get_value (0, "kStateIdle")
      = Except.ok 3
  ∧ (Function.mk 18 8 [105] "st" CodeBlock.NoBlock
        [((0, 3), (0, "kStateIdle"))]).get_name (0, 3) = some "kStateIdle" :=
  get_value_get_name_roundtrip _ 0 3 "kStateIdle" (by decide) (by decide)
    (by decide)

/-- Claim C6: `get_value` fails — and with exactly
`NoAssociatedValue(slot.to_string(), name)` — precisely when `(slot, name)`
is not bound as a right key of `named_values`, and succeeds otherwise;
`get_name` returns `none` (it cannot fail) precisely when `(slot, raw)` is
not bound as a left key, and `some` of the bound name otherwise. -/
theorem get_value_get_name_error_spec (f : Function) (slot : Nat) (nm : String)
    (v : Int) (hl : LeftUnique f.named_values) :
    (f.get_value (slot, nm)
        = Except.error (BBScriptError.NoAssociatedValue (toString slot) nm)
      ↔ ∀ e ∈ f.named_values, e.2 ≠ (slot, nm))
  ∧ ((∃ e ∈ f.named_values, e.2 = (slot, nm)) →
      ∃ w, f.get_value (slot, nm) = Except.ok w)
  ∧ (f.get_name (slot, v) = none ↔ ∀ e ∈ f.named_values, e.1 ≠ (slot, v))
  ∧ (∀ e ∈ f.named_values, e.1 = (slot, v) →
      f.get_name (slot, v) = some e.2.2) := by
  refine ⟨?_, ?_, ?_, ?_⟩
  · unfold Function.get_value
    cases hfind : f.named_values.find? (fun e => decide (e.2 = (slot, nm))) with
    | none =>
        rw [List.find?_eq_none] at hfind
        constructor
        · intro _ e he
          simpa using hfind e he
        · intro _; rfl
    | some e =>
        constructor
        · intro hc; exact Except.noConfusion hc
        · intro hall
          have hpe := List.find?_some hfind
          rw [decide_eq_true_eq] at hpe
          exact absurd hpe (hall e (List.mem_of_find?_eq_some hfind))
  · rintro ⟨e, he, hpe⟩
    unfold Function.get_value
    cases hfind : f.named_values.find? (fun e => decide (e.2 = (slot, nm))) with
    | none =>
        rw [List.find?_eq_none] at hfind
        exact absurd (decide_eq_true hpe) (hfind e he)
    | some e2 => exact ⟨e2.1.2, rfl⟩
  · unfold Function.get_name
    cases hfind : f.named_values.find? (fun e => decide (e.1 = (slot, v))) with
    | none =>
        rw [List.find?_eq_none] at hfind
        constructor
        · intro _ e he
          simpa using hfind e he
        · intro _; rfl
    | some e =>
        constructor
        · intro hc; exact Option.noConfusion hc
        · intro hall
          have hpe := List.find?_some hfind
          rw [decide_eq_true_eq] at hpe
          exact absurd hpe (hall e (List.mem_of_find?_eq_some hfind))
  · intro e he hpe
    unfold Function.get_name
    cases hfind : f.named_values.find? (fun e => decide (e.1 = (slot, v))) with
    | none =>
        rw [List.find?_eq_none] at hfind
        exact absurd (decide_eq_true hpe) (hfind e he)
    | some e2 =>
        have hm2 := List.mem_of_find?_eq_some hfind
        have hp2 := List.find?_some hfind
        rw [decide_eq_true_eq] at hp2
        have he2 : e2 = e := hl e2 hm2 e he (by rw [hp2, hpe])
        rw [he2]

/-- Witness for C6 on a one-entry record: an unbound name yields the exact
`NoAssociatedValue` error, an unbound raw value yields `none`, and the bound
raw value yields its name. -/
theorem get_value_get_name_error_spec_witness :
    (Function.mk 2 8 [] "g" CodeBlock.NoBlock
        [((0, 7), (0, "seven"))]).get_value (0, "missing")
      = Except.error (BBScriptError.NoAssociatedValue (toString 0) "missing")
  ∧ (Function.mk 2 8 [] "g" CodeBlock.NoBlock
        [((0, 7), (0, "seven"))]).get_name (0, 9) = none
  ∧ (Function.mk 2 8 [] "g" CodeBlock.NoBlock
        [((0, 7), (0, "seven"))]).get_name (0, 7) = some "seven" := by
  have h := get_value_get_name_error_spec
    (Function.mk 2 8 [] "g" CodeBlock.NoBlock [((0, 7), (0, "seven"))])
    0 "missing" 9 (by decide)
  refine ⟨h.1.mpr (by decide), h.2.2.1.mpr (by decide), ?_⟩
  exact (get_value_get_name_error_spec
    (Function.mk 2 8 [] "g" CodeBlock.NoBlock [((0, 7), (0, "seven"))])
    0 "x" 7 (by decide)).2.2.2 ((0, 7), (0, "seven")) (by decide) (by decide)

/-- Claim C7: `find_by_id` returns the first record in declaration order
whose `id` matches (its result is `ok f` exactly when the record list splits
as a match-free prefix, then `f` with the queried id), and when no record
matches it fails with `UnknownInstruction` carrying the queried id formatted
in hexadecimal — never a silent default. -/
theorem find_by_id_spec (db : GameDB) (id_in : Nat) (f : Function) :
    (db.find_by_id id_in = Except.ok f
      ↔ ∃ l1 l2, db.functions = l1 ++ f :: l2 ∧ f.id = id_in
          ∧ ∀ g ∈ l1, g.id ≠ id_in)
  ∧ ((∀ g ∈ db.functions, g.id ≠ id_in) →
      db.find_by_id id_in
        = Except.error
            (BBScriptError.UnknownFunction (formatHexUpper id_in))) := by
  constructor
  · have hok : db.find_by_id id_in = Except.ok f
        ↔ db.functions.find? (fun x => decide (x.id = id_in)) = some f := by
      unfold GameDB.find_by_id
      cases hfind : db.functions.find? (fun x => decide (x.id = id_in)) with
      | none =>
          constructor
          · intro hc; exact Except.noConfusion hc
          · intro hc; exact Option.noConfusion hc
      | some g =>
          constructor
          · intro hc
            exact congrArg some (Except.ok.inj hc)
          · intro hc
            exact congrArg Except.ok (Option.some.inj hc)
    rw [hok, find?_first]
    constructor
    · rintro ⟨l1, l2, heq, hp, hall⟩
      exact ⟨l1, l2, heq, by simpa using hp, fun g hg => by simpa using hall g hg⟩
    · rintro ⟨l1, l2, heq, hp, hall⟩
      exact ⟨l1, l2, heq, by simpa using hp, fun g hg => by simpa using hall g hg⟩
  · intro hall
    unfold GameDB.find_by_id
    rw [show db.functions.find? (fun x => decide (x.id = id_in)) = none from
      List.find?_eq_none.mpr (fun x hx => by simpa using hall x hx)]

/-- Witness for C7: on a database with duplicate id 2 the first match wins,
and a missing id 7 yields `UnknownFunction "0x7"`. -/
theorem find_by_id_spec_witness :
    (GameDB.mk [Function.mk 1 4 [] "a" CodeBlock.NoBlock [],
        Function.mk 2 4 [] "b" CodeBlock.NoBlock [],
        Function.mk 2 4 [] "c" CodeBlock.NoBlock []]).find_by_id 2
      = Except.ok (Function.mk 2 4 [] "b" CodeBlock.NoBlock [])
  ∧ (GameDB.mk [Function.mk 1 4 [] "a" CodeBlock.NoBlock [],
        Function.mk 2 4 [] "b" CodeBlock.NoBlock [],
        Function.mk 2 4 [] "c" CodeBlock.NoBlock []]).find_by_id 7
      = Except.error (BBScriptError.UnknownFunction "0x7") := by
  constructor
  · exact (find_by_id_spec _ 2 _).1.mpr
      ⟨[Function.mk 1 4 [] "a" CodeBlock.NoBlock []],
        [Function.mk 2 4 [] "c" CodeBlock.NoBlock []], rfl, rfl, by decide⟩
  · have h := (find_by_id_spec
      (GameDB.mk [Function.mk 1 4 [] "a" CodeBlock.NoBlock [],
        Function.mk 2 4 [] "b" CodeBlock.NoBlock [],
        Function.mk 2 4 [] "c" CodeBlock.NoBlock []]) 7
      (Function.mk 1 4 [] "a" CodeBlock.NoBlock [])).2 (by decide)
    rwa [show formatHexUpper 7 = "0x7" from by decide] at h

/-- Claim C8: for a record `r` whose `id` occurs in exactly one record and
whose `name` occurs in exactly one record, `find_by_id r.id` succeeds with a
record whose name is `r.name`, and `find_by_name r.name` succeeds with a
record whose id is `r.id`. -/
theorem find_roundtrip_unique (db : GameDB) (r : Function)
    (hmem : r ∈ db.functions)
    (hid : db.functions.countP (fun x => decide (x.id = r.id)) = 1)
    (hname : db.functions.countP (fun x => decide (x.name = r.name)) = 1) :
    (∃ f, db.find_by_id r.id = Except.ok f ∧ f.name = r.name)
  ∧ (∃ g, db.find_by_name r.name = Except.ok g ∧ g.id = r.id) := by
  constructor
  · refine ⟨r, ?_, rfl⟩
    unfold GameDB.find_by_id
    rw [find?_of_countP_one _ db.functions r hmem (by simp) hid]
  · refine ⟨r, ?_, rfl⟩
    unfold GameDB.find_by_name
    rw [find?_of_countP_one _ db.functions r hmem (by simp) hname]

/-- Witness for C8 on a two-record database with unique ids and names. -/
theorem find_roundtrip_unique_witness :
    (∃ f, (GameDB.mk [Function.mk 1 4 [] "a" CodeBlock.NoBlock [],
        Function.mk 2 4 [] "b" CodeBlock.NoBlock []]).find_by_id 1
      = Except.ok f ∧ f.name = "a")
  ∧ (∃ g, (GameDB.mk [Function.mk 1 4 [] "a" CodeBlock.NoBlock [],
        Function.mk 2 4 [] "b" CodeBlock.NoBlock []]).find_by_name "a"
      = Except.ok g ∧ g.id = 1) :=
  find_roundtrip_unique
    (GameDB.mk [Function.mk 1 4 [] "a" CodeBlock.NoBlock [],
      Function.mk 2 4 [] "b" CodeBlock.NoBlock []])
    (Function.mk 1 4 [] "a" CodeBlock.NoBlock [])
    (by decide) (by decide) (by decide)

/-- Claim C9: `instruction_name` returns the record's name when non-empty,
otherwise `"Unknown"` followed by the decimal id; in both cases the result
is non-empty. -/
theorem instruction_name_spec (f : Function) :
    (f.name ≠ "" → f.instruction_name = f.name)
  ∧ (f.name = "" → f.instruction_name = "Unknown" ++ toString f.id)
  ∧ f.instruction_name ≠ "" := by
  unfold Function.instruction_name
  by_cases h : f.name = ""
  · have hempty : f.name.isEmpty = true := (String.isEmpty_iff f.name).mpr h
    rw [if_pos hempty]
    refine ⟨fun hc => absurd h hc, fun _ => rfl, ?_⟩
    intro hc
    have hd := congrArg String.data hc
    rw [show ("Unknown" ++ toString f.id).data
          = 'U' :: ("nknown".data ++ (toString f.id).data) from rfl] at hd
    exact List.cons_ne_nil _ _ hd
  · have hempty : f.name.isEmpty = false := by
      rw [Bool.eq_false_iff]
      intro hc
      exact h ((String.isEmpty_iff f.name).mp hc)
    rw [if_neg (by simp [hempty])]
    exact ⟨fun _ => rfl, fun hc => absurd hc h, h⟩

/-- Witness for C9 on a record with empty name and id 3. -/
theorem instruction_name_spec_witness :
    ((Function.mk 3 4 [] "" CodeBlock.NoBlock []).name = "" →
      (Function.mk 3 4 [] "" CodeBlock.NoBlock []).instruction_name
        = "Unknown" ++ toString 3)
  ∧ (Function.mk 3 4 [] "" CodeBlock.NoBlock []).instruction_name ≠ "" :=
  ⟨fun _ =>
      (instruction_name_spec
        (Function.mk 3 4 [] "" CodeBlock.NoBlock [])).2.1 rfl,
    (instruction_name_spec (Function.mk 3 4 [] "" CodeBlock.NoBlock [])).2.2⟩

/-- Claim C10 as amended: the decoded sequence contains at most one `Unknown`
spec; when present it is the last element, its payload is at least 1, and
the byte sizes of all specs sum to `declared_size - 4` **modulo `2^32`**
(the sum equals `declared_size - 4` exactly whenever the `u32` consumed-byte
counter does not wrap, but only modulo `2^32` in general). -/
theorem get_args_unknown_tail (args : List Nat) (size : Nat)
    (hu : size < U32_MOD) :
    (get_args args size).countP isUnknownArg ≤ 1
  ∧ (∀ n, Arg.Unknown n ∈ get_args args size →
      1 ≤ n
      ∧ (get_args args size).getLast? = some (Arg.Unknown n)
      ∧ ((get_args args size).map argSize).sum % U32_MOD = size - 4) := by
  have hs := scan_snd_lt args
  have hmod := scan_sizes_mod args
  have hcount0 : (get_args_loop args).1.countP isUnknownArg = 0 := by
    rw [List.countP_eq_zero]
    intro a ha
    cases a with
    | String16 => simp [isUnknownArg]
    | String32 => simp [isUnknownArg]
    | Int => simp [isUnknownArg]
    | Unknown n => exact absurd ha (scan_no_unknown args n)
  by_cases hg1 : (get_args_loop args).2 < wrapSub size 4
  · by_cases hg2 : 4 ≤ size
    · have hlt : (get_args_loop args).2 < size - 4 := by
        rwa [wrapSub_eq_sub size 4 hg2 hu] at hg1
      have hv : wrapSub (wrapSub size (get_args_loop args).2) 4
          = size - (get_args_loop args).2 - 4 := by
        rw [wrapSub_eq_sub size _ (by omega) hu]
        rw [wrapSub_eq_sub _ 4 (by omega) (by omega)]
      have hres : get_args args size
          = (get_args_loop args).1
              ++ [Arg.Unknown (size - (get_args_loop args).2 - 4)] := by
        simp only [get_args]
        rw [if_pos hg1, if_pos hg2, hv]
      rw [hres]
      constructor
      · rw [List.countP_append, hcount0]
        simp [List.countP_cons, isUnknownArg]
      · intro n hn
        rcases List.mem_append.mp hn with h1 | h2
        · exact absurd h1 (scan_no_unknown args n)
        · have hn4 : n = size - (get_args_loop args).2 - 4 := by simpa using h2
          subst hn4
          refine ⟨by omega, List.getLast?_concat _, ?_⟩
          rw [List.map_append, List.sum_append]
          simp only [List.map_cons, List.map_nil, List.sum_cons, List.sum_nil,
            argSize]
          unfold U32_MOD at *
          omega
    · have hres : get_args args size = (get_args_loop args).1 := by
        simp only [get_args]
        rw [if_pos hg1, if_neg hg2]
      rw [hres]
      exact ⟨by simp [hcount0], fun n hn => absurd hn (scan_no_unknown args n)⟩
  · have hres : get_args args size = (get_args_loop args).1 := by
      simp only [get_args]
      rw [if_neg hg1]
    rw [hres]
    exact ⟨by simp [hcount0], fun n hn => absurd hn (scan_no_unknown args n)⟩

/-- Witness for the amended C10 at descriptor `"i"`, declared size 20. -/
theorem get_args_unknown_tail_witness :
    (get_args [105] 20).countP isUnknownArg ≤ 1
  ∧ 1 ≤ 12
  ∧ (get_args [105] 20).getLast? = some (Arg.Unknown 12)
  ∧ ((get_args [105] 20).map argSize).sum % U32_MOD = 20 - 4 := by
  have h := get_args_unknown_tail [105] 20 (by decide)
  have h2 := h.2 12 (by decide)
  exact ⟨h.1, h2.1, h2.2.1, h2.2.2⟩

/-- Counterexample to C10's exact-sum conjunct as stated: on the descriptor
made of `2^27` copies of the token `32s` with declared size 12, the `u32`
consumed counter wraps to 0, an `Unknown 8` padding spec is appended, and
the byte sizes of the returned specs sum to `2^32 + 8`, not to
`12 - 4 = 8`. -/
theorem get_args_sizes_counterexample :
    Arg.Unknown 8 ∈ get_args (List.replicate 134217728 [51, 50, 115]).flatten 12
  ∧ ((get_args (List.replicate 134217728 [51, 50, 115]).flatten 12).map
        argSize).sum
      ≠ 12 - 4 := by
  have hscan := scan_rep32 134217728
  have h1 : (get_args_loop (List.replicate 134217728 [51, 50, 115]).flatten).1
      = List.replicate 134217728 Arg.String32 := by rw [hscan]
  have h2 : (get_args_loop (List.replicate 134217728 [51, 50, 115]).flatten).2
      = 0 := by
    rw [hscan]
    decide
  have hres : get_args (List.replicate 134217728 [51, 50, 115]).flatten 12
      = List.replicate 134217728 Arg.String32 ++ [Arg.Unknown 8] := by
    simp only [get_args, h1, h2]
    rw [if_pos (show (0 : Nat) < wrapSub 12 4 from by decide)]
    rw [if_pos (show (4 : Nat) ≤ 12 from by decide)]
    rw [show wrapSub (wrapSub 12 0) 4 = 8 from by decide]
  rw [hres]
  constructor
  · exact List.mem_append.mpr (Or.inr (by simp))
  · rw [List.map_append, List.sum_append, List.map_replicate,
      List.sum_replicate]
    simp only [argSize, List.map_cons, List.map_nil, List.sum_cons,
      List.sum_nil, smul_eq_mul]
    norm_num

end BBScript
